import Mathlib

/-!
Verification of the uix-lang semantic-analysis and code-generation pipeline.

Part 1 embeds the UIX validation system (UIXSchema / UIXComponentValidator):
JavaScript values are modelled by JSValue (numbers as rationals, functions as
opaque tokens), schemas by the Schema inductive mirroring the UIXSchema class,
and validation by mutually recursive functions mirroring UIXSchema.validate
and its per-kind helpers.  Thrown UIXValidationError exceptions are modelled
as Except.error carrying the message, field and offending value.

Part 2 embeds the compiler (compile-to-react.js): the parsed AST, the
collection pass collectBindCandidatesFromAST, the partition into
internalStates, the emitters renderProps / generateJSX, and the final
propsToInject / autoStates computations.
-/

/-- Model of a JavaScript runtime value as consumed by the UIX validators.
Numbers are modelled as rationals (no NaN in the model); functions are opaque
tokens identified by a natural number. -/
inductive JSValue : Type where
  | undef : JSValue
  | nul : JSValue
  | bool : Bool → JSValue
  | num : Rat → JSValue
  | str : String → JSValue
  | fn : Nat → JSValue
  | arr : List JSValue → JSValue
  | obj : List (String × JSValue) → JSValue

mutual

/-- Structural equality on modelled values, used for the === style membership
test of validateEnum (the model restricts enum members to compare
structurally). -/
def JSValue.beq : JSValue → JSValue → Bool
  | .undef, .undef => true
  | .nul, .nul => true
  | .bool a, .bool b => a == b
  | .num a, .num b => a == b
  | .str a, .str b => a == b
  | .fn a, .fn b => a == b
  | .arr a, .arr b => JSValue.beqList a b
  | .obj a, .obj b => JSValue.beqFields a b
  | _, _ => false

/-- Element-wise equality of value lists. -/
def JSValue.beqList : List JSValue → List JSValue → Bool
  | [], [] => true
  | a :: as, b :: bs => JSValue.beq a b && JSValue.beqList as bs
  | _, _ => false

/-- Element-wise equality of object field lists. -/
def JSValue.beqFields : List (String × JSValue) → List (String × JSValue) → Bool
  | [], [] => true
  | a :: as, b :: bs => a.1 == b.1 && JSValue.beq a.2 b.2 && JSValue.beqFields as bs
  | _, _ => false

end

instance : BEq JSValue := ⟨JSValue.beq⟩

mutual

/-- String conversion used by Array.prototype.join on enum values. -/
def jsDisplay : JSValue → String
  | .undef => "undefined"
  | .nul => "null"
  | .bool b => if b then "true" else "false"
  | .num q => toString q
  | .str s => s
  | .fn _ => "function"
  | .arr xs => String.intercalate "," (jsDisplayList xs)
  | .obj _ => "[object Object]"

/-- Display strings of a list of values. -/
def jsDisplayList : List JSValue → List String
  | [] => []
  | x :: xs => jsDisplay x :: jsDisplayList xs

end

/-- The result of the JavaScript typeof operator on a modelled value. -/
def jsTypeof : JSValue → String
  | .undef => "undefined"
  | .nul => "object"
  | .bool _ => "boolean"
  | .num _ => "number"
  | .str _ => "string"
  | .fn _ => "function"
  | .arr _ => "object"
  | .obj _ => "object"

/-- UIXValidationError: message, failing field path, offending value. -/
structure VErr : Type where
  message : String
  field : String
  value : JSValue

/-- The UIXSchema descriptor.  Each constructor corresponds to one schema
type of the source, carrying required, defaultValue (undefined when the
option was absent) and the kind-specific constraints.  A string pattern
constraint is the pair of its source text and the RegExp test function,
modelled as an opaque predicate. -/
inductive Schema : Type where
  | str (required : Bool) (dflt : JSValue)
      (minLength maxLength : Option Nat) (pattern : Option (String × (String → Bool))) : Schema
  | num (required : Bool) (dflt : JSValue)
      (min max : Option Rat) (integer : Bool) : Schema
  | bool (required : Bool) (dflt : JSValue) : Schema
  | fn (required : Bool) (dflt : JSValue) : Schema
  | arr (required : Bool) (dflt : JSValue)
      (items : Option Schema) (minItems maxItems : Option Nat) : Schema
  | obj (required : Bool) (dflt : JSValue)
      (properties : Option (List (String × Schema))) : Schema
  | enum (required : Bool) (dflt : JSValue) (values : List JSValue) : Schema
  | union (required : Bool) (dflt : JSValue) (schemas : List Schema) : Schema
  | any (required : Bool) (dflt : JSValue) : Schema

/-- this.required of a schema. -/
def Schema.isRequired : Schema → Bool
  | .str r _ _ _ _ => r
  | .num r _ _ _ _ => r
  | .bool r _ => r
  | .fn r _ => r
  | .arr r _ _ _ _ => r
  | .obj r _ _ => r
  | .enum r _ _ => r
  | .union r _ _ => r
  | .any r _ => r

/-- this.defaultValue of a schema. -/
def Schema.defaultValue : Schema → JSValue
  | .str _ d _ _ _ => d
  | .num _ d _ _ _ => d
  | .bool _ d => d
  | .fn _ d => d
  | .arr _ d _ _ _ => d
  | .obj _ d _ => d
  | .enum _ d _ => d
  | .union _ d _ => d
  | .any _ d => d

/-- The undefined value (named form for statements). -/
def jsUndefined : JSValue := JSValue.undef

/-- The absence test of UIXSchema.validate: value undefined or null. -/
def jsAbsent : JSValue → Bool
  | .undef => true
  | .nul => true
  | _ => false

/-- JavaScript property lookup value[key] on a modelled object field list:
first matching key, undefined when missing. -/
def jsLookup (fields : List (String × JSValue)) (key : String) : JSValue :=
  match fields.find? (fun kv => kv.1 == key) with
  | some kv => kv.2
  | none => JSValue.undef

/-- UIXSchema.validateString on a present value (type test and the
minLength, maxLength, pattern constraints in source order). -/
def validateString (mn mx : Option Nat) (pat : Option (String × (String → Bool)))
    (v : JSValue) (fieldName : String) : Except VErr JSValue :=
  match v with
  | .str sv =>
    if mn.isSome ∧ sv.length < mn.getD 0 then
      .error ⟨fieldName ++ " must be at least " ++ toString (mn.getD 0) ++ " characters long", fieldName, v⟩
    else if mx.isSome ∧ mx.getD 0 < sv.length then
      .error ⟨fieldName ++ " must be no more than " ++ toString (mx.getD 0) ++ " characters long", fieldName, v⟩
    else
      match pat with
      | some p =>
        if p.2 sv then .ok v
        else .error ⟨fieldName ++ " must match pattern: " ++ p.1, fieldName, v⟩
      | none => .ok v
  | _ => .error ⟨fieldName ++ " must be a string, got " ++ jsTypeof v, fieldName, v⟩

/-- UIXSchema.validateNumber on a present value (type test and the min, max,
integer constraints in source order). -/
def validateNumber (mn mx : Option Rat) (intc : Bool) (v : JSValue)
    (fieldName : String) : Except VErr JSValue :=
  match v with
  | .num q =>
    if mn.isSome ∧ q < mn.getD 0 then
      .error ⟨fieldName ++ " must be at least " ++ toString (mn.getD 0), fieldName, v⟩
    else if mx.isSome ∧ mx.getD 0 < q then
      .error ⟨fieldName ++ " must be no more than " ++ toString (mx.getD 0), fieldName, v⟩
    else if intc ∧ q.den ≠ 1 then
      .error ⟨fieldName ++ " must be an integer", fieldName, v⟩
    else .ok v
  | _ => .error ⟨fieldName ++ " must be a number, got " ++ jsTypeof v, fieldName, v⟩

/-- UIXSchema.validateBoolean on a present value. -/
def validateBoolean (v : JSValue) (fieldName : String) : Except VErr JSValue :=
  match v with
  | .bool _ => .ok v
  | _ => .error ⟨fieldName ++ " must be a boolean, got " ++ jsTypeof v, fieldName, v⟩

/-- UIXSchema.validateFunction on a present value. -/
def validateFunction (v : JSValue) (fieldName : String) : Except VErr JSValue :=
  match v with
  | .fn _ => .ok v
  | _ => .error ⟨fieldName ++ " must be a function, got " ++ jsTypeof v, fieldName, v⟩

/-- UIXSchema.validateEnum on a present value. -/
def validateEnum (values : List JSValue) (v : JSValue) (fieldName : String) :
    Except VErr JSValue :=
  if values.contains v then .ok v
  else .error ⟨fieldName ++ " must be one of: " ++
    String.intercalate ", " (jsDisplayList values), fieldName, v⟩

mutual

/-- UIXSchema.validate: the absence check and required/defaultValue handling,
then dispatch on the schema type to the per-kind validators. -/
def validate (s : Schema) (v : JSValue) (fieldName : String) : Except VErr JSValue :=
  if jsAbsent v then
    if s.isRequired then
      .error ⟨fieldName ++ " is required", fieldName, v⟩
    else
      .ok s.defaultValue
  else
    match s with
    | .str _ _ mn mx pat => validateString mn mx pat v fieldName
    | .num _ _ mn mx intc => validateNumber mn mx intc v fieldName
    | .bool _ _ => validateBoolean v fieldName
    | .fn _ _ => validateFunction v fieldName
    | .arr _ _ items mnI mxI =>
      match v with
      | .arr xs =>
        if mnI.isSome ∧ xs.length < mnI.getD 0 then
          .error ⟨fieldName ++ " must have at least " ++ toString (mnI.getD 0) ++ " items", fieldName, v⟩
        else if mxI.isSome ∧ mxI.getD 0 < xs.length then
          .error ⟨fieldName ++ " must have no more than " ++ toString (mxI.getD 0) ++ " items", fieldName, v⟩
        else
          match items with
          | some itemSchema =>
            match validateItems itemSchema xs 0 fieldName with
            | .ok ys => .ok (.arr ys)
            | .error e => .error e
          | none => .ok v
      | _ => .error ⟨fieldName ++ " must be an array, got " ++ jsTypeof v, fieldName, v⟩
    | .obj _ _ properties =>
      match v with
      | .obj fields =>
        match properties with
        | some props =>
          match validateObjectProps props fields fieldName with
          | .ok outFields => .ok (.obj outFields)
          | .error e => .error e
        | none => .ok v
      | _ => .error ⟨fieldName ++ " must be an object, got " ++ jsTypeof v, fieldName, v⟩
    | .enum _ _ values => validateEnum values v fieldName
    | .union _ _ schemas => validateUnion schemas v fieldName []
    | .any _ _ => .ok v
termination_by (sizeOf s, 0)

/-- The value.map of validateArray: each element validated against the item
schema with the field path suffixed by the element index. -/
def validateItems (itemSchema : Schema) (xs : List JSValue) (idx : Nat)
    (fieldName : String) : Except VErr (List JSValue) :=
  match xs with
  | [] => .ok []
  | x :: rest =>
    match validate itemSchema x (fieldName ++ "[" ++ toString idx ++ "]") with
    | .error e => .error e
    | .ok y =>
      match validateItems itemSchema rest (idx + 1) fieldName with
      | .error e => .error e
      | .ok ys => .ok (y :: ys)
termination_by (sizeOf itemSchema, sizeOf xs + 1)

/-- The declared-property loop of validateObject: builds the validated object
from the declared properties in schema order, dropping undeclared fields. -/
def validateObjectProps (props : List (String × Schema))
    (fields : List (String × JSValue)) (fieldName : String) :
    Except VErr (List (String × JSValue)) :=
  match props with
  | [] => .ok []
  | (key, sub) :: rest =>
    match validate sub (jsLookup fields key) (fieldName ++ "." ++ key) with
    | .error e => .error e
    | .ok y =>
      match validateObjectProps rest fields fieldName with
      | .error e => .error e
      | .ok ys => .ok ((key, y) :: ys)
termination_by (sizeOf props, 0)

/-- UIXSchema.validateUnion: tries each alternative in order, returns the
first success, accumulating each failure message; when all alternatives fail,
raises the aggregate error joining all messages in order. -/
def validateUnion (schemas : List Schema) (v : JSValue) (fieldName : String)
    (errs : List String) : Except VErr JSValue :=
  match schemas with
  | [] =>
    .error ⟨fieldName ++ " must match one of the union types. Errors: " ++
      String.intercalate "; " errs, fieldName, v⟩
  | s :: rest =>
    match validate s v fieldName with
    | .ok r => .ok r
    | .error e => validateUnion rest v fieldName (errs ++ [e.message])
termination_by (sizeOf schemas, 0)

end

/-- UIXComponentValidator.validate: validates each declared property in
schema-declaration order against its schema; the first per-property failure
is wrapped with the component name and property name and returned
immediately.  The non-fatal unknown-property console warnings of the source
do not affect the returned value and are not modelled. -/
def componentValidate (componentName : String)
    (propsSchema : List (String × Schema))
    (props : List (String × JSValue)) : Except VErr (List (String × JSValue)) :=
  match propsSchema with
  | [] => .ok []
  | (propName, s) :: rest =>
    match validate s (jsLookup props propName) propName with
    | .error e =>
      .error ⟨"Invalid prop \x27" ++ propName ++ "\x27 for component \x27" ++
        componentName ++ "\x27: " ++ e.message, propName, jsLookup props propName⟩
    | .ok val =>
      match componentValidate componentName rest props with
      | .error e2 => .error e2
      | .ok vals => .ok ((propName, val) :: vals)

/-- The failure message of a validation outcome (empty for success); used to
phrase the union aggregate of the specification. -/
def errMsgOf (r : Except VErr JSValue) : String :=
  match r with
  | .error e => e.message
  | .ok _ => ""

/-- Written from the spec words for the union clause: try each alternative
schema in declaration order, return the result of the first alternative whose
validation succeeds, and only if all fail raise a single aggregate failure
carrying every alternative message in order. -/
def specUnionOutcome (schemas : List Schema) (v : JSValue) (fieldName : String) :
    Except VErr JSValue :=
  match schemas.find? (fun s => (validate s v fieldName).isOk) with
  | some s => validate s v fieldName
  | none =>
    .error ⟨fieldName ++ " must match one of the union types. Errors: " ++
      String.intercalate "; " (schemas.map (fun s => errMsgOf (validate s v fieldName))),
      fieldName, v⟩

/-- No duplicate keys in a declared property list. -/
def nodupKeys : List String → Bool
  | [] => true
  | k :: ks => !ks.contains k && nodupKeys ks

mutual

/-- Written from the spec words (schema round-trip, section 8): a decidable
strict-satisfaction test.  A present value strictly satisfies a schema when
it has the schema type and meets every constraint; an object must carry
exactly the declared keys in declaration order (undeclared fields would be
dropped); a union is strictly satisfied when the first alternative whose
validation succeeds is itself strictly satisfied.  The field path argument
mirrors the paths validate uses for nested values. -/
def strictSat (p : String) (s : Schema) (v : JSValue) : Bool :=
  match s, v with
  | .str _ _ mn mx pat, .str sv =>
    !(mn.isSome && decide (sv.length < mn.getD 0)) &&
    !(mx.isSome && decide (mx.getD 0 < sv.length)) &&
    (match pat with
     | some pt => pt.2 sv
     | none => true)
  | .num _ _ mn mx intc, .num q =>
    !(mn.isSome && decide (q < mn.getD 0)) &&
    !(mx.isSome && decide (mx.getD 0 < q)) &&
    (!intc || q.den == 1)
  | .bool _ _, .bool _ => true
  | .fn _ _, .fn _ => true
  | .arr _ _ items mnI mxI, .arr xs =>
    !(mnI.isSome && decide (xs.length < mnI.getD 0)) &&
    !(mxI.isSome && decide (mxI.getD 0 < xs.length)) &&
    (match items with
     | some itemSchema => strictSatItems p itemSchema xs 0
     | none => true)
  | .obj _ _ properties, .obj fields =>
    (match properties with
     | some props => nodupKeys (props.map Prod.fst) && strictSatFields p props fields
     | none => true)
  | .enum _ _ values, w => values.contains w
  | .union _ _ schemas, w => strictSatUnion p schemas w
  | .any _ _, _ => true
  | _, _ => false
termination_by (sizeOf s, 0)

/-- Every array element is present and strictly satisfies the item schema,
at the element paths validate uses. -/
def strictSatItems (p : String) (itemSchema : Schema) (xs : List JSValue)
    (idx : Nat) : Bool :=
  match xs with
  | [] => true
  | x :: rest =>
    !jsAbsent x && strictSat (p ++ "[" ++ toString idx ++ "]") itemSchema x &&
    strictSatItems p itemSchema rest (idx + 1)
termination_by (sizeOf itemSchema, sizeOf xs + 1)

/-- The object fields carry exactly the declared keys in declaration order,
each present and strictly satisfying its sub-schema. -/
def strictSatFields (p : String) (props : List (String × Schema))
    (fields : List (String × JSValue)) : Bool :=
  match props, fields with
  | [], [] => true
  | (k, s) :: ps, (k2, x) :: fs =>
    k == k2 && !jsAbsent x && strictSat (p ++ "." ++ k) s x &&
    strictSatFields p ps fs
  | _, _ => false
termination_by (sizeOf props, 0)

/-- The first union alternative whose validation succeeds is strictly
satisfied. -/
def strictSatUnion (p : String) (schemas : List Schema) (v : JSValue) : Bool :=
  match schemas with
  | [] => false
  | s :: rest =>
    if (validate s v p).isOk then strictSat p s v
    else strictSatUnion p rest v
termination_by (sizeOf schemas, 0)

end

theorem jsLookup_cons_self (k : String) (x : JSValue) (fs : List (String × JSValue)) :
    jsLookup ((k, x) :: fs) k = x := by
  simp [jsLookup]

theorem jsLookup_cons_ne (k k2 : String) (x : JSValue) (fs : List (String × JSValue))
    (h : k ≠ k2) : jsLookup ((k, x) :: fs) k2 = jsLookup fs k2 := by
  simp [jsLookup, List.find?_cons_of_neg, h]

theorem strictSatFields_align (p : String) (props : List (String × Schema))
    (fields : List (String × JSValue))
    (hnd : nodupKeys (props.map Prod.fst) = true)
    (hsf : strictSatFields p props fields = true) :
    (props.map (fun ks => (ks.1, jsLookup fields ks.1))) = fields ∧
    ∀ ks ∈ props, jsAbsent (jsLookup fields ks.1) = false ∧
      strictSat (p ++ "." ++ ks.1) ks.2 (jsLookup fields ks.1) = true := by
  induction props generalizing fields with
  | nil =>
    cases fields with
    | nil => simp
    | cons f fs => simp [strictSatFields] at hsf
  | cons ks ps ih =>
    obtain ⟨k, s⟩ := ks
    cases fields with
    | nil => simp [strictSatFields] at hsf
    | cons f fs =>
      obtain ⟨k2, x⟩ := f
      rw [strictSatFields.eq_def] at hsf
      simp only [] at hsf
      simp only [Bool.and_eq_true, beq_iff_eq, Bool.not_eq_true'] at hsf
      obtain ⟨⟨⟨hk, hab⟩, hsx⟩, hrest⟩ := hsf
      subst hk
      simp only [nodupKeys] at hnd
      simp only [Bool.and_eq_true, Bool.not_eq_true'] at hnd
      obtain ⟨hkout, hnd'⟩ := hnd
      obtain ⟨hmap, hfacts⟩ := ih fs hnd' hrest
      have hne : ∀ ks2 ∈ ps, k ≠ ks2.1 := by
        intro ks2 hmem hcontra
        have hmemk : k ∈ ps.map Prod.fst := by
          rw [hcontra]; exact List.mem_map_of_mem Prod.fst hmem
        have hc : (ps.map Prod.fst).contains k = true := by simpa using hmemk
        rw [hc] at hkout; cases hkout
      constructor
      · simp only [List.map_cons, jsLookup_cons_self]
        congr 1
        have hcong : List.map (fun ks => (ks.1, jsLookup ((k, x) :: fs) ks.1)) ps
            = List.map (fun ks => (ks.1, jsLookup fs ks.1)) ps := by
          apply List.map_congr_left
          intro ks2 hmem
          rw [jsLookup_cons_ne _ _ _ _ (hne ks2 hmem)]
        rw [hcong, hmap]
      · intro ks2 hmem
        rcases List.mem_cons.mp hmem with heq | hmem'
        · subst heq; simp only [jsLookup_cons_self]; exact ⟨hab, hsx⟩
        · rw [jsLookup_cons_ne _ _ _ _ (hne ks2 hmem')]
          exact hfacts ks2 hmem'

mutual

theorem strictSat_validate (s : Schema) (v : JSValue) (p : String)
    (hp : jsAbsent v = false) (hs : strictSat p s v = true) :
    validate s v p = .ok v := by
  cases s with
  | str r d mn mx pat =>
    cases v
    case str sv =>
      rw [strictSat.eq_def] at hs
      simp only [Bool.and_eq_true, Bool.not_eq_true'] at hs
      obtain ⟨⟨h1, h2⟩, h3⟩ := hs
      have h1' : ¬(mn.isSome = true ∧ sv.length < mn.getD 0) := by
        rintro ⟨ha, hb⟩; simp [ha, hb] at h1
      have h2' : ¬(mx.isSome = true ∧ mx.getD 0 < sv.length) := by
        rintro ⟨ha, hb⟩; simp [ha, hb] at h2
      simp only [validate, jsAbsent, validateString]
      rw [if_neg h1', if_neg h2']
      cases pat with
      | none => rfl
      | some pt =>
        have h3' : pt.2 sv = true := h3
        simp [h3']
    all_goals (rw [strictSat.eq_def] at hs; simp at hs)
  | num r d mn mx intc =>
    cases v
    case num q =>
      rw [strictSat.eq_def] at hs
      simp only [Bool.and_eq_true, Bool.not_eq_true'] at hs
      obtain ⟨⟨h1, h2⟩, h3⟩ := hs
      have h1' : ¬(mn.isSome = true ∧ q < mn.getD 0) := by
        rintro ⟨ha, hb⟩; simp [ha, hb] at h1
      have h2' : ¬(mx.isSome = true ∧ mx.getD 0 < q) := by
        rintro ⟨ha, hb⟩; simp [ha, hb] at h2
      have h3' : ¬(intc = true ∧ q.den ≠ 1) := by
        rintro ⟨ha, hb⟩; simp [ha, hb] at h3
      simp only [validate, jsAbsent, validateNumber]
      rw [if_neg h1', if_neg h2', if_neg h3']
      rfl
    all_goals (rw [strictSat.eq_def] at hs; simp at hs)
  | bool r d =>
    cases v
    case bool b => simp [validate, jsAbsent, validateBoolean]
    all_goals (rw [strictSat.eq_def] at hs; simp at hs)
  | fn r d =>
    cases v
    case fn i => simp [validate, jsAbsent, validateFunction]
    all_goals (rw [strictSat.eq_def] at hs; simp at hs)
  | arr r d items mnI mxI =>
    cases v
    case arr xs =>
      rw [strictSat.eq_def] at hs
      simp only [Bool.and_eq_true, Bool.not_eq_true'] at hs
      obtain ⟨⟨h1, h2⟩, h3⟩ := hs
      have h1' : ¬(mnI.isSome = true ∧ xs.length < mnI.getD 0) := by
        rintro ⟨ha, hb⟩; simp [ha, hb] at h1
      have h2' : ¬(mxI.isSome = true ∧ mxI.getD 0 < xs.length) := by
        rintro ⟨ha, hb⟩; simp [ha, hb] at h2
      rw [validate.eq_def]
      simp only [jsAbsent, Bool.false_eq_true, if_false]
      rw [if_neg h1', if_neg h2']
      cases items with
      | none => rfl
      | some itemSchema =>
        have h3' : strictSatItems p itemSchema xs 0 = true := h3
        have hitems := validateItems_ok itemSchema xs 0 p h3'
        simp [hitems]
    all_goals (rw [strictSat.eq_def] at hs; simp at hs)
  | obj r d properties =>
    cases v
    case obj fields =>
      rw [strictSat.eq_def] at hs
      cases properties with
      | none => simp [validate, jsAbsent]
      | some props =>
        simp only [Bool.and_eq_true] at hs
        obtain ⟨hnd, hsf⟩ := hs
        obtain ⟨hmap, hfacts⟩ := strictSatFields_align p props fields hnd hsf
        have hop := validateObjectProps_ok props fields p hfacts
        simp [validate, jsAbsent, hop, hmap]
    all_goals (rw [strictSat.eq_def] at hs; simp at hs)
  | enum r d values =>
    have hs' : values.contains v = true := by
      rw [strictSat.eq_def] at hs
      cases v <;> simpa using hs
    simp [validate, hp, validateEnum, hs']
  | union r d schemas =>
    have hs' : strictSatUnion p schemas v = true := by
      rw [strictSat.eq_def] at hs
      cases v <;> simpa using hs
    have hu := validateUnion_ok schemas v p [] hp hs'
    simp [validate, hp, hu]
  | any r d =>
    simp [validate, hp]
termination_by (sizeOf s, 0)

theorem validateItems_ok : ∀ (itemSchema : Schema) (xs : List JSValue) (idx : Nat)
    (p : String), strictSatItems p itemSchema xs idx = true →
    validateItems itemSchema xs idx p = .ok xs
  | itemSchema, [], idx, p, _ => by simp [validateItems]
  | itemSchema, x :: rest, idx, p, h => by
    rw [strictSatItems.eq_def] at h
    simp only [Bool.and_eq_true, Bool.not_eq_true'] at h
    obtain ⟨⟨hab, hsx⟩, hrest⟩ := h
    have h1 := strictSat_validate itemSchema x (p ++ "[" ++ toString idx ++ "]") hab hsx
    have h2 := validateItems_ok itemSchema rest (idx + 1) p hrest
    simp [validateItems, h1, h2]
termination_by itemSchema xs => (sizeOf itemSchema, sizeOf xs + 1)

theorem validateObjectProps_ok : ∀ (props : List (String × Schema))
    (allFields : List (String × JSValue)) (p : String),
    (∀ ks ∈ props, jsAbsent (jsLookup allFields ks.1) = false ∧
         strictSat (p ++ "." ++ ks.1) ks.2 (jsLookup allFields ks.1) = true) →
    validateObjectProps props allFields p =
      .ok (props.map (fun ks => (ks.1, jsLookup allFields ks.1)))
  | [], _, _, _ => by simp [validateObjectProps]
  | (k, sub) :: rest, allFields, p, h => by
    obtain ⟨hab, hsx⟩ := h (k, sub) (by simp)
    have h1 := strictSat_validate sub (jsLookup allFields k) (p ++ "." ++ k) hab hsx
    have h2 := validateObjectProps_ok rest allFields p (fun q hq => h q (by simp [hq]))
    simp [validateObjectProps, h1, h2]
termination_by props => (sizeOf props, 0)

theorem validateUnion_ok : ∀ (schemas : List Schema) (v : JSValue) (p : String)
    (errs : List String), jsAbsent v = false → strictSatUnion p schemas v = true →
    validateUnion schemas v p errs = .ok v
  | [], v, p, errs, _, h => by rw [strictSatUnion.eq_def] at h; simp at h
  | s :: rest, v, p, errs, hp, h => by
    rw [strictSatUnion.eq_def] at h
    simp only at h
    by_cases hok : (validate s v p).isOk = true
    · rw [if_pos hok] at h
      have h1 := strictSat_validate s v p hp h
      simp [validateUnion, h1]
    · rw [if_neg hok] at h
      cases hv : validate s v p with
      | ok r => rw [hv] at hok; simp [Except.isOk, Except.toBool] at hok
      | error e =>
        have h2 := validateUnion_ok rest v p (errs ++ [e.message]) hp h
        simp [validateUnion, hv, h2]
termination_by schemas => (sizeOf schemas, 0)

end

theorem validateUnion_eq_spec (schemas : List Schema) (v : JSValue) (p : String)
    (errs : List String) :
    validateUnion schemas v p errs =
      match schemas.find? (fun s => (validate s v p).isOk) with
      | some s => validate s v p
      | none => .error ⟨p ++ " must match one of the union types. Errors: " ++
          String.intercalate "; " (errs ++ schemas.map (fun s => errMsgOf (validate s v p))),
          p, v⟩ := by
  induction schemas generalizing errs with
  | nil => simp [validateUnion]
  | cons s rest ih =>
    cases hv : validate s v p with
    | ok r =>
      have hfind : (s :: rest).find? (fun s2 => (validate s2 v p).isOk) = some s :=
        List.find?_cons_of_pos _ (by simp [hv, Except.isOk, Except.toBool])
      simp [validateUnion, hv, hfind]
    | error e =>
      simp only [validateUnion, hv]
      rw [ih (errs ++ [e.message])]
      have hfind : (s :: rest).find? (fun s2 => (validate s2 v p).isOk) =
          rest.find? (fun s2 => (validate s2 v p).isOk) :=
        List.find?_cons_of_neg _ (by simp [hv, Except.isOk, Except.toBool])
      rw [hfind]
      cases rest.find? (fun s2 => (validate s2 v p).isOk) with
      | some s2 => rfl
      | none => simp [errMsgOf, hv]

/-- C5: for a union schema and a present value, validation tries the
alternatives in declaration order and returns the result of the first
alternative whose validation succeeds; only when every alternative fails does
it raise a single aggregate failure carrying every alternative message in
declaration order (the content of specUnionOutcome). -/
theorem C5_union_first_success (r : Bool) (d : JSValue) (schemas : List Schema)
    (v : JSValue) (p : String) (hpresent : jsAbsent v = false) :
    validate (Schema.union r d schemas) v p = specUnionOutcome schemas v p := by
  rw [validate.eq_def, hpresent]
  simp only [Bool.false_eq_true, if_false]
  rw [validateUnion_eq_spec]
  simp [specUnionOutcome]

theorem C5_union_first_success_witness :
    jsAbsent (.str "a") = false ∧
    validate (Schema.union false .undef
        [Schema.any false .undef, Schema.str false .undef none none none])
      (.str "a") "v" =
      specUnionOutcome [Schema.any false .undef, Schema.str false .undef none none none]
        (.str "a") "v" :=
  ⟨rfl, C5_union_first_success false .undef _ (.str "a") "v" rfl⟩

/-- C6: validating an absent (undefined or null) value fails with the
required error carrying the field path when the schema is required, and
returns the schema defaultValue with no further checks when it is not. -/
theorem C6_absent_required_default (s : Schema) (v : JSValue) (p : String)
    (habs : jsAbsent v = true) :
    (s.isRequired = true → validate s v p = .error ⟨p ++ " is required", p, v⟩) ∧
    (s.isRequired = false → validate s v p = .ok s.defaultValue) := by
  constructor
  · intro hr; rw [validate.eq_def, habs]; simp [hr]
  · intro hr; rw [validate.eq_def, habs]; simp [hr]

theorem C6_absent_required_default_witness :
    jsAbsent jsUndefined = true ∧
    (Schema.str true .undef none none none).isRequired = true ∧
    validate (Schema.str true .undef none none none) jsUndefined "x" =
      .error ⟨"x is required", "x", jsUndefined⟩ :=
  ⟨rfl, rfl,
    (C6_absent_required_default (Schema.str true .undef none none none) jsUndefined "x" rfl).1 rfl⟩

/-- C8: component validation checks the declared properties in
schema-declaration order; when the properties before position i all validate
and the property at position i fails, the result is that failure wrapped
with the component and property name, whatever schema entries follow
(fail-fast, the remaining declared properties are never consulted). -/
theorem C8_component_fail_fast (cname : String) (pre : List (String × Schema))
    (k : String) (s : Schema) (post : List (String × Schema))
    (props : List (String × JSValue)) (e : VErr)
    (hpre : ∀ q ∈ pre, (validate q.2 (jsLookup props q.1) q.1).isOk = true)
    (hfail : validate s (jsLookup props k) k = .error e) :
    componentValidate cname (pre ++ (k, s) :: post) props =
      .error ⟨"Invalid prop \x27" ++ k ++ "\x27 for component \x27" ++ cname ++
        "\x27: " ++ e.message, k, jsLookup props k⟩ := by
  induction pre with
  | nil => simp [componentValidate, hfail]
  | cons q pre ih =>
    obtain ⟨qk, qs⟩ := q
    have hq := hpre (qk, qs) (by simp)
    cases hv : validate qs (jsLookup props qk) qk with
    | error e2 => rw [hv] at hq; simp [Except.isOk, Except.toBool] at hq
    | ok val =>
      have hrest := ih (fun q2 hq2 => hpre q2 (by simp [hq2]))
      simp [componentValidate, hv, hrest]

theorem C8_component_fail_fast_witness :
    (∀ q ∈ [("text", Schema.str false .undef none none none)],
      (validate q.2 (jsLookup [("text", JSValue.str "Go")] q.1) q.1).isOk = true) ∧
    validate (Schema.fn true .undef) (jsLookup [("text", JSValue.str "Go")] "onClick")
      "onClick" = .error ⟨"onClick is required", "onClick", .undef⟩ ∧
    componentValidate "Button"
      [("text", Schema.str false .undef none none none),
       ("onClick", Schema.fn true .undef),
       ("label", Schema.str false .undef none none none)]
      [("text", JSValue.str "Go")] =
      .error ⟨"Invalid prop \x27onClick\x27 for component \x27Button\x27: onClick is required",
        "onClick", jsLookup [("text", JSValue.str "Go")] "onClick"⟩ :=
  ⟨by
    intro q hq
    simp only [List.mem_singleton] at hq
    subst hq
    rw [validate.eq_def]
    rfl,
   by rw [validate.eq_def]; rfl,
   C8_component_fail_fast "Button" [("text", Schema.str false .undef none none none)]
     "onClick" (Schema.fn true .undef)
     [("label", Schema.str false .undef none none none)]
     [("text", JSValue.str "Go")] ⟨"onClick is required", "onClick", .undef⟩
     (by
       intro q hq
       simp only [List.mem_singleton] at hq
       subst hq
       rw [validate.eq_def]
       rfl)
     (by rw [validate.eq_def]; rfl)⟩

/-- C9 counterexample: an object value with an undeclared extra field
satisfies the object schema type and every declared-property constraint, yet
validate succeeds with the object rebuilt from the declared keys only, which
differs from the input value: identity on success fails as stated. -/
theorem C9_identity_counterexample :
    validate (Schema.obj false .undef (some [("a", Schema.any false .undef)]))
      (.obj [("a", .str "x"), ("b", .str "y")]) "value" =
      .ok (.obj [("a", .str "x")]) ∧
    JSValue.obj [("a", JSValue.str "x")] ≠
      JSValue.obj [("a", JSValue.str "x"), ("b", JSValue.str "y")] := by
  constructor
  · simp [validate, validateObjectProps, jsAbsent, jsLookup]
  · simp

/-- C9 (amended): for every present value that strictly satisfies a schema
(type plus all constraints; object values carrying exactly the declared keys
in declaration order; the first union alternative whose validation succeeds
being itself strictly satisfied), validate succeeds and returns the value
unchanged, including for composite array and object schemas. -/
theorem C9_identity_amended (s : Schema) (v : JSValue) (p : String)
    (hp : jsAbsent v = false) (hs : strictSat p s v = true) :
    validate s v p = .ok v :=
  strictSat_validate s v p hp hs

theorem C9_identity_amended_witness :
    jsAbsent (.arr [.num 1, .num 2]) = false ∧
    strictSat "value"
      (Schema.arr false .undef (some (Schema.num false .undef none none false)) none none)
      (.arr [.num 1, .num 2]) = true ∧
    validate
      (Schema.arr false .undef (some (Schema.num false .undef none none false)) none none)
      (.arr [.num 1, .num 2]) "value" = .ok (.arr [.num 1, .num 2]) :=
  ⟨rfl,
   by simp [strictSat, strictSatItems, jsAbsent],
   C9_identity_amended _ _ "value" rfl (by simp [strictSat, strictSatItems, jsAbsent])⟩

/-!
Part 2: the compiler pipeline of compile-to-react.js.  The parser (an
external collaborator) produces property values that are either string
literals or expression objects carrying a dotted identifier path; element
nodes carry a tag, a property list and children; conditional and loop blocks
carry the expression text of their condition or source and, for loops, the
item binder.  Braces and apostrophes inside generated JSX text are written
with character escapes.
-/

/-- A parsed property value: a string literal, or an expression object
(the value field of the parser output). -/
inductive PropValue : Type where
  | str (s : String)
  | expr (v : String)

/-- An AST node consumed by the compiler. -/
inductive Node : Type where
  | elem (tag : String) (props : List (String × PropValue)) (children : List Node)
  | ifB (cond : String) (children : List Node)
  | forB (item lst : String) (children : List Node)

/-- capitalize: first character upper-cased, rest unchanged; empty input
gives the empty string. -/
def capitalize (s : String) : String :=
  match s.data with
  | [] => ""
  | c :: cs => String.mk (c.toUpper :: cs)

/-- The synthesized setter name: set followed by the capitalized variable. -/
def setterName (v : String) : String :=
  "set" ++ capitalize v

/-- First-character class of the identifier regexes of the source. -/
def isIdentStartChar (c : Char) : Bool :=
  c.isAlpha || c == '_' || c == '$'

/-- Tail-character class of the identifier-path regex used by
extractIdentifiers (letters, digits, underscore, dollar, dot). -/
def isIdentPathChar (c : Char) : Bool :=
  c.isAlphanum || c == '_' || c == '$' || c == '.'

/-- Tail-character class of the simple-identifier regex used for bind
targets (letters, digits, underscore; no dollar, no dot). -/
def isSimpleIdentChar (c : Char) : Bool :=
  c.isAlphanum || c == '_'

/-- The identifier-path test of extractIdentifiers. -/
def matchIdentPath (s : String) : Bool :=
  match s.data with
  | [] => false
  | c :: cs => isIdentStartChar c && cs.all isIdentPathChar

/-- The simple-identifier test applied to bind targets. -/
def isSimpleIdent (s : String) : Bool :=
  match s.data with
  | [] => false
  | c :: cs => isIdentStartChar c && cs.all isSimpleIdentChar

/-- value.split of the source applied at the first dot: the root identifier
of a dotted path (the characters before the first dot, the whole string
when it has none). -/
def rootIdent (s : String) : String :=
  String.mk (s.data.takeWhile (fun c => c != '.'))

/-- JavaScript String.prototype.startsWith, by character list. -/
def strStartsWith (s pre : String) : Bool :=
  pre.data.isPrefixOf s.data

/-- JavaScript String.prototype.slice from a character index. -/
def strDrop (s : String) (n : Nat) : String :=
  String.mk (s.data.drop n)

/-- JavaScript String.prototype.trim: leading and trailing whitespace
removed. -/
def strTrim (s : String) : String :=
  String.mk (((s.data.dropWhile Char.isWhitespace).reverse.dropWhile Char.isWhitespace).reverse)

/-- usedIdentifiers.add of the source: JavaScript Set insertion (append when
not already a member). -/
def addUsed (x : String) (used : List String) : List String :=
  if used.contains x then used else used ++ [x]

/-- extractIdentifiers: when the value matches the identifier-path pattern,
its root identifier is added to the used set; otherwise no effect. -/
def extractIdentifiers (value : String) (used : List String) : List String :=
  if matchIdentPath value then addUsed (rootIdent value) used else used

/-- JavaScript Map.set: replace the value at an existing key in place, else
append the entry. -/
def mapSet (m : List (String × String)) (k v : String) : List (String × String) :=
  match m with
  | [] => [(k, v)]
  | (k2, v2) :: rest => if k2 == k then (k, v) :: rest else (k2, v2) :: mapSet rest k v

/-- The accumulating traversal state of the collection pass: the
usedIdentifiers set, the bindCandidates map, and a count of the console
warnings issued for malformed bind values. -/
structure CollectState : Type where
  used : List String
  bindCandidates : List (String × String)
  warnings : Nat

/-- Property lookup on a parsed property object (keys are unique in objects
produced by the parser; first match). -/
def propLookup (props : List (String × PropValue)) (k : String) : Option PropValue :=
  (props.find? (fun kv => kv.1 == k)).map (fun kv => kv.2)

/-- The initial value captured for a bind candidate: the sibling initial
property (its expression text or its literal), defaulting to the empty
string when absent. -/
def initialValueOf (props : List (String × PropValue)) : String :=
  match propLookup props "initial" with
  | some (.expr v) => v
  | some (.str s) => s
  | none => ""

/-- One entry of the property loop of collectBindCandidatesFromAST: when the
key is bind, an expression value passing the simple-identifier test
registers a bind candidate with the initial value drawn from the node
properties and adds both the variable and its synthesized setter to
usedIdentifiers; a failing value draws a console warning and registers
nothing. -/
def collectBindStep (props : List (String × PropValue)) (st : CollectState)
    (kv : String × PropValue) : CollectState :=
  if kv.1 == "bind" then
    match kv.2 with
    | .expr varName =>
      if isSimpleIdent varName then
        let st1 := { st with
          bindCandidates := mapSet st.bindCandidates varName (initialValueOf props) }
        let st2 := { st1 with used := addUsed varName st1.used }
        { st2 with used := addUsed (setterName varName) st2.used }
      else
        { st with warnings := st.warnings + 1 }
    | .str _ => { st with warnings := st.warnings + 1 }
  else st

/-- The property loop of collectBindCandidatesFromAST over the entries of a
node in order. -/
def collectBindProp (props : List (String × PropValue)) (st : CollectState) :
    CollectState :=
  props.foldl (collectBindStep props) st

/-- State update for extractIdentifiers. -/
def stExtract (c : String) (st : CollectState) : CollectState :=
  { st with used := extractIdentifiers c st.used }

/-- State update for usedIdentifiers.add. -/
def stAddUsed (x : String) (st : CollectState) : CollectState :=
  { st with used := addUsed x st.used }

mutual

/-- collectBindCandidatesFromAST: the bind-property loop, then the children
in order, then the conditional condition (If) or the loop source and item
binder (For).  The recursive call the source makes on the condition and
source expression objects themselves has no effect (they carry no props or
children) and is omitted. -/
def collectNode : Node → CollectState → CollectState
  | .elem _ props cs, st => collectNodeList cs (collectBindProp props st)
  | .ifB cond cs, st => stExtract cond (collectNodeList cs st)
  | .forB item lst cs, st => stAddUsed item (stExtract lst (collectNodeList cs st))

/-- ast.forEach(collectBindCandidatesFromAST). -/
def collectNodeList : List Node → CollectState → CollectState
  | [], st => st
  | n :: rest, st => collectNodeList rest (collectNode n st)

end

/-- The partition loop over bindCandidates: a candidate whose variable and
synthesized setter are both in usedIdentifiers is assumed to be a prop and
skipped; otherwise it becomes internal state. -/
def internalStatesOf (st : CollectState) : List (String × String) :=
  st.bindCandidates.filter (fun kv =>
    !(st.used.contains kv.1 && st.used.contains (setterName kv.1)))

/-- The tag translation table of the compiler. -/
def tagMap : List (String × String) :=
  [("App", "div"), ("Title", "h1"), ("Row", "div"),
   ("Button", "button"), ("Input", "input"), ("Text", "span")]

/-- tagMap lookup with identity fallback. -/
def tagFor (t : String) : String :=
  match tagMap.find? (fun kv => kv.1 == t) with
  | some kv => kv.2
  | none => t

/-- JSON.stringify escaping of quote and backslash characters. -/
def jsonEscape (s : String) : String :=
  String.mk (s.data.foldr
    (fun c acc =>
      if c = '"' then '\\' :: '"' :: acc
      else if c = '\\' then '\\' :: '\\' :: acc
      else c :: acc)
    [])

/-- JSON.stringify of a string literal. -/
def jsonStringify (s : String) : String :=
  "\"" ++ jsonEscape s ++ "\""

/-- Membership of a key in the internalStates map. -/
def hasKey (m : List (String × String)) (k : String) : Bool :=
  (m.find? (fun kv => kv.1 == k)).isSome

/-- The entry loop of renderProps: skips bind, initial, bindDefault and
text, skips keys that are internal state, renders event-handler keys (on
prefix) as brace-wrapped references (the greet special case collapses to
the same shape), renders expression values brace-wrapped and string values
JSON-quoted, extracting identifiers along the way. -/
def renderPropsList (internal : List (String × String)) :
    List (String × PropValue) → List String → List String × List String
  | [], used => ([], used)
  | (key, value) :: rest, used =>
    if key == "bind" || key == "initial" || key == "bindDefault" then
      renderPropsList internal rest used
    else if key == "text" then
      renderPropsList internal rest used
    else if hasKey internal key then
      renderPropsList internal rest used
    else if strStartsWith key "on" then
      match value with
      | .expr e =>
        let used1 := extractIdentifiers e used
        let item := if e == "greet" then key ++ "=\x7bgreet\x7d"
          else key ++ "=\x7b" ++ e ++ "\x7d"
        let (items, used2) := renderPropsList internal rest used1
        (item :: items, used2)
      | .str sv =>
        let used1 := extractIdentifiers sv used
        let item := if sv == "greet" then key ++ "=\x7bgreet\x7d"
          else key ++ "=\x7b" ++ sv ++ "\x7d"
        let (items, used2) := renderPropsList internal rest used1
        (item :: items, used2)
    else
      match value with
      | .expr e =>
        let used1 := extractIdentifiers e used
        let (items, used2) := renderPropsList internal rest used1
        ((key ++ "=\x7b" ++ e ++ "\x7d") :: items, used2)
      | .str sv =>
        let (items, used2) := renderPropsList internal rest used
        ((key ++ "=" ++ jsonStringify sv) :: items, used2)

/-- renderProps: the rendered attribute strings joined with single spaces,
together with the updated used set. -/
def renderProps (internal : List (String × String))
    (props : List (String × PropValue)) (used : List String) :
    String × List String :=
  let (items, used2) := renderPropsList internal props used
  (String.intercalate " " items, used2)

/-- The value/onChange wiring generateJSX emits for an Input carrying an
expression-valued bind property (the internal-state branch and the prop
branch of the source emit this same template). -/
def inputBindWiring (varName : String) : String :=
  "value=\x7b" ++ varName ++ "\x7d onChange=\x7be => " ++ setterName varName ++
    "(e.target.value)\x7d"

mutual

/-- generateJSX: conditional blocks become guarded ternary expressions, loop
blocks become mapping expressions with a React.Fragment key preferring an id
field, and standard elements translate their tag, render their properties,
an Input with an expression-valued bind property additionally receiving
value/onChange wiring from the bind target and its synthesized setter
(both branches of the internal-state test of the source emit the same
text), then inline text content followed by the children. -/
def genNode (internal : List (String × String)) :
    Node → String → List String → String × List String
  | .ifB cond cs, indent, used =>
    let used1 := extractIdentifiers cond used
    let (inner, used2) := genNodeList internal cs (indent ++ "  ") used1
    (indent ++ "\x7b" ++ cond ++ " ? (\n" ++ String.intercalate "\n" inner ++
      "\n" ++ indent ++ ") : null\x7d", used2)
  | .forB item lst cs, indent, used =>
    let used1 := addUsed item (extractIdentifiers lst used)
    let childIndent := indent ++ "  "
    let (inner, used2) := genNodeList internal cs (childIndent ++ "  ") used1
    (indent ++ "\x7b" ++ lst ++ ".map((" ++ item ++ ", index) => (\n" ++
      childIndent ++ "  <React.Fragment key=\x7btypeof " ++ item ++
      " === \x27object\x27 && " ++ item ++ " !== null && \x27id\x27 in " ++ item ++
      " ? " ++ item ++ ".id : index\x7d>\n" ++ String.intercalate "\n" inner ++
      "\n" ++ childIndent ++ "  </React.Fragment>\n" ++ indent ++ "))\x7d", used2)
  | .elem tag props cs, indent, used =>
    let childIndent := indent ++ "  "
    let jsxTag := tagFor tag
    let specialInputProps :=
      if tag == "Input" then
        match propLookup props "bind" with
        | some (.expr varName) =>
          if hasKey internal varName then inputBindWiring varName
          else inputBindWiring varName
        | _ => ""
      else ""
    let (propStr, used1) := renderProps internal props used
    let (textContent, used2) :=
      match propLookup props "text" with
      | some (.expr e) => (["\x7b" ++ e ++ "\x7d"], extractIdentifiers e used1)
      | some (.str sv) => ([sv], used1)
      | none => (([] : List String), used1)
    let (childStrs, used3) := genNodeList internal cs childIndent used2
    let inner := String.intercalate "\n"
      ((textContent ++ childStrs).filter (fun s => s ≠ ""))
    let finalPropString := String.intercalate " "
      ([propStr, specialInputProps].filter (fun s => s ≠ ""))
    let rendered :=
      if strTrim inner == "" then
        indent ++ "<" ++ jsxTag ++
          (if finalPropString ≠ "" then " " ++ finalPropString else "") ++ " />"
      else
        indent ++ "<" ++ jsxTag ++
          (if finalPropString ≠ "" then " " ++ finalPropString else "") ++ ">\n" ++
          inner ++ "\n" ++ indent ++ "</" ++ jsxTag ++ ">"
    (rendered, used3)
termination_by structural n _ _ => n

/-- Children rendered in order, threading the used set. -/
def genNodeList (internal : List (String × String)) :
    List Node → String → List String → List String × List String
  | [], _, used => ([], used)
  | n :: rest, indent, used =>
    let (s, used1) := genNode internal n indent used
    let (srest, used2) := genNodeList internal rest indent used1
    (s :: srest, used2)
termination_by structural l _ _ => l

end

/-- Lexicographic comparison of character lists by code unit, the order
JavaScript Array.prototype.sort applies to strings. -/
def charListLe : List Char → List Char → Bool
  | [], _ => true
  | _ :: _, [] => false
  | a :: as, b :: bs =>
    if a.toNat < b.toNat then true
    else if b.toNat < a.toNat then false
    else charListLe as bs

/-- Lexicographic string comparison. -/
def strLe (a b : String) : Bool :=
  charListLe a.data b.data

/-- Insertion of a string into a lexicographically sorted list. -/
def insertSorted (x : String) : List String → List String
  | [] => [x]
  | y :: ys => if strLe x y then x :: y :: ys else y :: insertSorted x ys

/-- JavaScript Array.prototype.sort on strings: the list rearranged into
lexicographic order (the used set holds no duplicates, so the sorted result
is unique and the sorting algorithm is immaterial). -/
def jsSortStrings : List String → List String
  | [] => []
  | x :: xs => insertSorted x (jsSortStrings xs)

/-- propsToInject: the used identifiers filtered by the internal-state test
of the source (a setter-shaped identifier is stripped of its set prefix
without decapitalizing) and sorted for consistent output. -/
def propsToInjectOf (used : List String) (internal : List (String × String)) :
    List String :=
  jsSortStrings (used.filter (fun id =>
    let varName := if strStartsWith id "set" then strDrop id 3 else id
    let isInternalStateVar := hasKey internal varName
    let isInternalStateSetter := strStartsWith id "set" && hasKey internal varName
    !isInternalStateVar && !isInternalStateSetter))

/-- autoStates: one React.useState declaration per internal state, the
initial value passed through when it looks like an identifier path and
JSON-stringified otherwise. -/
def autoStatesOf (internal : List (String × String)) : String :=
  String.intercalate "\n" (internal.map (fun kv =>
    let stateInit := if matchIdentPath kv.2 then kv.2 else jsonStringify kv.2
    "  const [" ++ kv.1 ++ ", " ++ setterName kv.1 ++
      "] = React.useState(" ++ stateInit ++ ");"))

/-- The observable outputs of one compiler run. -/
structure CompileResult : Type where
  usedAfterCollect : List String
  bindCandidates : List (String × String)
  warnings : Nat
  internalStates : List (String × String)
  jsxBody : String
  usedFinal : List String
  propsToInject : List String
  autoStates : String

/-- The pipeline of compile-to-react.js: the collection pass over the whole
program, the partition of bind candidates into internal states, JSX
emission (which continues to extend usedIdentifiers), then the injected
parameter list and the useState declarations. -/
def compileUIX (ast : List Node) : CompileResult :=
  let st := collectNodeList ast ⟨[], [], 0⟩
  let internal := internalStatesOf st
  let (bodies, usedF) := genNodeList internal ast "  " st.used
  { usedAfterCollect := st.used
    bindCandidates := st.bindCandidates
    warnings := st.warnings
    internalStates := internal
    jsxBody := String.intercalate "\n" bodies
    usedFinal := usedF
    propsToInject := propsToInjectOf usedF internal
    autoStates := autoStatesOf internal }

theorem mem_addUsed (x y : String) (u : List String) :
    y ∈ addUsed x u ↔ y = x ∨ y ∈ u := by
  unfold addUsed
  split
  · next h =>
    have hx : x ∈ u := by simpa using h
    constructor
    · exact fun hy => Or.inr hy
    · rintro (rfl | hy)
      · exact hx
      · exact hy
  · simp [or_comm]

theorem mem_extractIdentifiers (c y : String) (u : List String) :
    y ∈ extractIdentifiers c u ↔
      (matchIdentPath c = true ∧ y = rootIdent c) ∨ y ∈ u := by
  unfold extractIdentifiers
  split
  · next h => rw [mem_addUsed]; simp [h]
  · next h => simp [h]

theorem mem_mapSet (m : List (String × String)) (k v : String)
    (kv : String × String) (hm : kv ∈ mapSet m k v) : kv = (k, v) ∨ kv ∈ m := by
  induction m with
  | nil => simpa [mapSet] using hm
  | cons h t ih =>
    obtain ⟨k2, v2⟩ := h
    rw [mapSet] at hm
    by_cases hk : (k2 == k) = true
    · rw [if_pos hk] at hm
      rcases List.mem_cons.mp hm with rfl | hm'
      · exact .inl rfl
      · exact .inr (List.mem_cons_of_mem _ hm')
    · rw [if_neg hk] at hm
      rcases List.mem_cons.mp hm with rfl | hm'
      · exact .inr (List.mem_cons_self _ _)
      · rcases ih hm' with h1 | h2
        · exact .inl h1
        · exact .inr (List.mem_cons_of_mem _ h2)

/-- The invariant threaded through the collection pass: every registered
bind candidate already has its variable and synthesized setter in the used
set. -/
def candInv (st : CollectState) : Prop :=
  ∀ kv ∈ st.bindCandidates, kv.1 ∈ st.used ∧ setterName kv.1 ∈ st.used

theorem candInv_collectBindStep (props : List (String × PropValue))
    (st : CollectState) (kv : String × PropValue) (h : candInv st) :
    candInv (collectBindStep props st kv) := by
  unfold collectBindStep
  split
  · match kv.2 with
    | .expr varName =>
      simp only
      split
      · intro kv2 hkv2
        simp only at hkv2
        rcases mem_mapSet _ _ _ _ hkv2 with rfl | hold
        · constructor
          · simp [mem_addUsed]
          · simp [mem_addUsed]
        · obtain ⟨h1, h2⟩ := h kv2 hold
          constructor
          · simp [mem_addUsed, h1]
          · simp [mem_addUsed, h2]
      · exact h
    | .str _ => exact h
  · exact h

theorem candInv_collectBindProp (props l : List (String × PropValue))
    (st : CollectState) (h : candInv st) :
    candInv (l.foldl (collectBindStep props) st) := by
  induction l generalizing st with
  | nil => exact h
  | cons kv rest ih => exact ih _ (candInv_collectBindStep props st kv h)

theorem candInv_stExtract (c : String) (st : CollectState) (h : candInv st) :
    candInv (stExtract c st) := by
  intro kv hkv
  obtain ⟨h1, h2⟩ := h kv hkv
  unfold stExtract
  constructor
  · simp [mem_extractIdentifiers, h1]
  · simp [mem_extractIdentifiers, h2]

theorem candInv_stAddUsed (x : String) (st : CollectState) (h : candInv st) :
    candInv (stAddUsed x st) := by
  intro kv hkv
  obtain ⟨h1, h2⟩ := h kv hkv
  unfold stAddUsed
  constructor
  · simp [mem_addUsed, h1]
  · simp [mem_addUsed, h2]

mutual

theorem candInv_collectNode (n : Node) (st : CollectState) (h : candInv st) :
    candInv (collectNode n st) := by
  match n with
  | .elem t props cs =>
    rw [collectNode]
    exact candInv_collectNodeList cs _ (candInv_collectBindProp props props st h)
  | .ifB cond cs =>
    rw [collectNode]
    exact candInv_stExtract cond _ (candInv_collectNodeList cs st h)
  | .forB item lst cs =>
    rw [collectNode]
    exact candInv_stAddUsed item _ (candInv_stExtract lst _ (candInv_collectNodeList cs st h))

theorem candInv_collectNodeList (l : List Node) (st : CollectState) (h : candInv st) :
    candInv (collectNodeList l st) := by
  match l with
  | [] => rw [collectNodeList]; exact h
  | n :: rest =>
    rw [collectNodeList]
    exact candInv_collectNodeList rest _ (candInv_collectNode n st h)

end

theorem internalStatesOf_eq_nil (st : CollectState) (h : candInv st) :
    internalStatesOf st = [] := by
  unfold internalStatesOf
  rw [List.filter_eq_nil_iff]
  intro kv hkv
  obtain ⟨h1, h2⟩ := h kv hkv
  simp [h1, h2]

theorem compileUIX_internal_nil (ast : List Node) :
    (compileUIX ast).internalStates = [] := by
  have h0 : candInv ⟨[], [], 0⟩ := by intro kv hkv; simp at hkv
  exact internalStatesOf_eq_nil _ (candInv_collectNodeList ast _ h0)

theorem compileUIX_jsxBody_eq (ast : List Node) :
    (compileUIX ast).jsxBody = String.intercalate "\n"
      (genNodeList (compileUIX ast).internalStates ast "  "
        (collectNodeList ast ⟨[], [], 0⟩).used).1 := rfl

/-- The registered identifiers of one property list: each valid bind target
followed by its synthesized setter. -/
def bindIdentsOfProps : List (String × PropValue) → List String
  | [] => []
  | (key, value) :: rest =>
    (if key == "bind" then
      match value with
      | .expr v => if isSimpleIdent v then [v, setterName v] else []
      | .str _ => []
     else []) ++ bindIdentsOfProps rest

mutual

/-- The identifiers the collection pass registers for one node: valid bind
targets with their setters, condition root identifiers of conditional
blocks (when the condition matches the identifier-path pattern), source
root identifiers and item binders of loop blocks. -/
def collectedIdentsNode : Node → List String
  | .elem _ props cs => bindIdentsOfProps props ++ collectedIdentsList cs
  | .ifB cond cs =>
    collectedIdentsList cs ++ (if matchIdentPath cond then [rootIdent cond] else [])
  | .forB item lst cs =>
    collectedIdentsList cs ++ (if matchIdentPath lst then [rootIdent lst] else []) ++ [item]

/-- The identifiers the collection pass registers for a node list. -/
def collectedIdentsList : List Node → List String
  | [] => []
  | n :: rest => collectedIdentsNode n ++ collectedIdentsList rest

end

theorem mem_collectBindStep_used (props : List (String × PropValue))
    (st : CollectState) (kv : String × PropValue) (y : String) :
    y ∈ (collectBindStep props st kv).used ↔
      y ∈ st.used ∨ y ∈ (if kv.1 == "bind" then
        match kv.2 with
        | .expr v => if isSimpleIdent v then [v, setterName v] else []
        | .str _ => ([] : List String)
       else []) := by
  unfold collectBindStep
  split
  · next hb =>
    match kv.2 with
    | .expr v =>
      simp only
      split
      · next hv => simp [mem_addUsed, hb, hv]; tauto
      · next hv => simp [hb, hv]
    | .str sv => simp [hb]
  · next hb => simp [if_neg hb]

theorem mem_collectBindFold_used (props l : List (String × PropValue))
    (st : CollectState) (y : String) :
    y ∈ (l.foldl (collectBindStep props) st).used ↔
      y ∈ st.used ∨ y ∈ bindIdentsOfProps l := by
  induction l generalizing st with
  | nil => simp [bindIdentsOfProps]
  | cons kv rest ih =>
    obtain ⟨key, value⟩ := kv
    rw [List.foldl_cons, ih, mem_collectBindStep_used]
    simp only [bindIdentsOfProps, List.mem_append]
    tauto

mutual

theorem mem_collectNode_used (n : Node) (st : CollectState) (y : String) :
    y ∈ (collectNode n st).used ↔ y ∈ st.used ∨ y ∈ collectedIdentsNode n := by
  match n with
  | .elem t props cs =>
    rw [collectNode, mem_collectNodeList_used cs, collectedIdentsNode]
    unfold collectBindProp
    rw [mem_collectBindFold_used]
    simp only [List.mem_append]
    tauto
  | .ifB cond cs =>
    rw [collectNode, collectedIdentsNode]
    unfold stExtract
    rw [mem_extractIdentifiers, mem_collectNodeList_used cs]
    by_cases hm : matchIdentPath cond = true <;> (simp [hm]; try tauto)
  | .forB item lst cs =>
    rw [collectNode, collectedIdentsNode]
    unfold stAddUsed stExtract
    rw [mem_addUsed, mem_extractIdentifiers, mem_collectNodeList_used cs]
    by_cases hm : matchIdentPath lst = true <;> (simp [hm]; try tauto)

theorem mem_collectNodeList_used (l : List Node) (st : CollectState) (y : String) :
    y ∈ (collectNodeList l st).used ↔ y ∈ st.used ∨ y ∈ collectedIdentsList l := by
  match l with
  | [] => rw [collectNodeList, collectedIdentsList]; simp
  | n :: rest =>
    rw [collectNodeList, collectedIdentsList,
      mem_collectNodeList_used rest, mem_collectNode_used n]
    simp only [List.mem_append]
    tauto

end

/-- Written from the spec words for the emitted parameter list: the used
identifiers minus every internal-state variable and minus every
internal-state setter name, sorted lexicographically. -/
def specParamList (used : List String) (internal : List (String × String)) :
    List String :=
  jsSortStrings (used.filter (fun id =>
    !(internal.any (fun kv => kv.1 == id)) &&
    !(internal.any (fun kv => setterName kv.1 == id))))

theorem propsToInjectOf_nil_eq_spec (u : List String) :
    propsToInjectOf u [] = specParamList u [] := by
  unfold propsToInjectOf specParamList hasKey
  simp

/-- C1 (code bug): with the program Input(bind: count) and no other
reference to count or setCount anywhere, the collection pass itself adds
count and setCount to usedIdentifiers while registering the candidate, so
the partition check sees both names present and leaves internalStates
empty; count is never placed in internal state even though the
classification comments and the specification require it. -/
theorem C1_partition_bug_eval :
    (compileUIX [Node.elem "Input" [("bind", PropValue.expr "count")] []]).bindCandidates
      = [("count", "")] ∧
    (compileUIX [Node.elem "Input" [("bind", PropValue.expr "count")] []]).usedAfterCollect
      = ["count", "setCount"] ∧
    (compileUIX [Node.elem "Input" [("bind", PropValue.expr "count")] []]).internalStates
      = [] :=
  ⟨rfl, rfl, rfl⟩

/-- C2 counterexample: an onClick property referencing greet contributes
nothing to the used set during the collection pass; greet is first recorded
only during code emission. -/
theorem C2_collection_counterexample :
    ("greet" ∉ (collectNodeList
      [Node.elem "Button" [("onClick", PropValue.expr "greet"), ("text", PropValue.str "Go")] []]
      ⟨[], [], 0⟩).used) ∧
    (compileUIX
      [Node.elem "Button" [("onClick", PropValue.expr "greet"), ("text", PropValue.str "Go")] []]).usedFinal
      = ["greet"] := by
  constructor
  · decide
  · rfl

/-- C2 (amended): the pre-partition traversal populates UsedIdentifiers with
exactly the valid bind targets and their synthesized setters, the
conditional-block condition root identifiers (when the condition matches the
identifier-path pattern), the loop-block source root identifiers (likewise)
and the loop-item binders; root identifiers of other element property values
are not recorded by this traversal. -/
theorem C2_collection_characterization (ast : List Node) (x : String) :
    x ∈ (collectNodeList ast ⟨[], [], 0⟩).used ↔ x ∈ collectedIdentsList ast := by
  rw [mem_collectNodeList_used]
  simp

/-- C3 (code bug): for Input(bind: name, initial: "Ann") with no other
reference to name or setName, the emitted output declares no state (the
partition is empty, so autoStates is the empty string) and the emitted
parameter list does contain name (and setName). -/
theorem C3_bind_initial_scenario_eval :
    (compileUIX [Node.elem "Input"
      [("bind", PropValue.expr "name"), ("initial", PropValue.str "Ann")] []]).autoStates
      = "" ∧
    (compileUIX [Node.elem "Input"
      [("bind", PropValue.expr "name"), ("initial", PropValue.str "Ann")] []]).propsToInject
      = ["name", "setName"] :=
  ⟨rfl, rfl⟩

/-- C4: the emitted parameter list equals the final used-identifier set
minus every internal-state variable and minus every internal-state setter
name, sorted lexicographically; no internal-state setter ever appears in
the parameter list. -/
theorem C4_props_to_inject_spec (ast : List Node) :
    (compileUIX ast).propsToInject =
      specParamList (compileUIX ast).usedFinal (compileUIX ast).internalStates ∧
    ∀ kv ∈ (compileUIX ast).internalStates,
      setterName kv.1 ∉ (compileUIX ast).propsToInject := by
  have hnil := compileUIX_internal_nil ast
  constructor
  · have h2 : (compileUIX ast).propsToInject =
        propsToInjectOf (compileUIX ast).usedFinal (compileUIX ast).internalStates := rfl
    rw [h2, hnil, propsToInjectOf_nil_eq_spec]
  · rw [hnil]
    intro kv hkv
    simp at hkv

theorem C4_props_to_inject_spec_witness :
    (compileUIX [Node.elem "Input" [("bind", PropValue.expr "name")] []]).propsToInject =
      specParamList
        (compileUIX [Node.elem "Input" [("bind", PropValue.expr "name")] []]).usedFinal
        (compileUIX [Node.elem "Input" [("bind", PropValue.expr "name")] []]).internalStates :=
  (C4_props_to_inject_spec [Node.elem "Input" [("bind", PropValue.expr "name")] []]).1

/-- C7 counterexample: for Input(bind: user.name), whose bind value fails
the simple-identifier test, a warning is counted and no candidate is
registered, yet the generated JSX is not the JSX of the same Input without
the bind annotation: the generator still emits value/onChange wiring
derived from the malformed target. -/
theorem C7_malformed_bind_counterexample :
    (compileUIX [Node.elem "Input" [("bind", PropValue.expr "user.name")] []]).warnings = 1 ∧
    (compileUIX [Node.elem "Input" [("bind", PropValue.expr "user.name")] []]).bindCandidates = [] ∧
    (compileUIX [Node.elem "Input" [("bind", PropValue.expr "user.name")] []]).jsxBody =
      "  <input value=\x7buser.name\x7d onChange=\x7be => setUser.name(e.target.value)\x7d />" ∧
    (compileUIX [Node.elem "Input" [] []]).jsxBody = "  <input />" :=
  ⟨rfl, rfl, rfl, rfl⟩

/-- C7 (amended): a malformed bind value is non-fatal, draws one warning and
registers no candidate and no used identifiers; a non-Input node with such a
bind is emitted exactly as if it had no bind annotation; an Input node with
an expression-valued malformed bind, however, still receives value/onChange
wiring derived from the malformed target and its synthesized setter. -/
theorem C7_malformed_bind_amended (v : String) (hv : isSimpleIdent v = false) :
    (collectNodeList [Node.elem "Input" [("bind", PropValue.expr v)] []] ⟨[], [], 0⟩).warnings = 1 ∧
    (collectNodeList [Node.elem "Input" [("bind", PropValue.expr v)] []] ⟨[], [], 0⟩).bindCandidates = [] ∧
    (collectNodeList [Node.elem "Input" [("bind", PropValue.expr v)] []] ⟨[], [], 0⟩).used = [] ∧
    (compileUIX [Node.elem "Input" [("bind", PropValue.expr v)] []]).jsxBody =
      "  <input " ++ inputBindWiring v ++ " />" ∧
    (compileUIX [Node.elem "Text" [("bind", PropValue.expr v)] []]).jsxBody = "  <span />" := by
  refine ⟨?_, ?_, ?_, ?_, ?_⟩
  · simp [collectNodeList, collectNode, collectBindProp, collectBindStep, hv]
  · simp [collectNodeList, collectNode, collectBindProp, collectBindStep, hv]
  · simp [collectNodeList, collectNode, collectBindProp, collectBindStep, hv]
  · rw [compileUIX_jsxBody_eq, compileUIX_internal_nil]
    rfl
  · rw [compileUIX_jsxBody_eq, compileUIX_internal_nil]
    rfl

theorem C7_malformed_bind_amended_witness :
    isSimpleIdent "user.name" = false ∧
    (compileUIX [Node.elem "Input" [("bind", PropValue.expr "user.name")] []]).warnings = 1 := by
  constructor
  · rfl
  · have h := (C7_malformed_bind_amended "user.name" rfl).1
    have h2 : (compileUIX [Node.elem "Input" [("bind", PropValue.expr "user.name")] []]).warnings =
      (collectNodeList [Node.elem "Input" [("bind", PropValue.expr "user.name")] []] ⟨[], [], 0⟩).warnings := rfl
    rw [h2, h]

/-- C10: for every program, every registered bind candidate has both its
variable name and its synthesized setter inserted into the used set by the
collection pass itself, regardless of any other references in the program. -/
theorem C10_collection_inserts_bind_names (ast : List Node) (varName init : String)
    (hmem : (varName, init) ∈ (collectNodeList ast ⟨[], [], 0⟩).bindCandidates) :
    varName ∈ (collectNodeList ast ⟨[], [], 0⟩).used ∧
    setterName varName ∈ (collectNodeList ast ⟨[], [], 0⟩).used := by
  have h0 : candInv ⟨[], [], 0⟩ := by intro kv hkv; simp at hkv
  exact candInv_collectNodeList ast _ h0 (varName, init) hmem

theorem C10_collection_inserts_bind_names_witness :
    ("count", "") ∈ (collectNodeList [Node.elem "Input" [("bind", PropValue.expr "count")] []]
      ⟨[], [], 0⟩).bindCandidates ∧
    "count" ∈ (collectNodeList [Node.elem "Input" [("bind", PropValue.expr "count")] []]
      ⟨[], [], 0⟩).used ∧
    "setCount" ∈ (collectNodeList [Node.elem "Input" [("bind", PropValue.expr "count")] []]
      ⟨[], [], 0⟩).used := by
  have hmem : ("count", "") ∈ (collectNodeList
      [Node.elem "Input" [("bind", PropValue.expr "count")] []] ⟨[], [], 0⟩).bindCandidates := by
    show ("count", "") ∈ [("count", "")]
    simp
  obtain ⟨h1, h2⟩ := C10_collection_inserts_bind_names
    [Node.elem "Input" [("bind", PropValue.expr "count")] []] "count" "" hmem
  exact ⟨hmem, h1, h2⟩
